import Mathlib

/-!
Verification of the two-party chat relay server (`src/main.py`).

The server state (the `connected_users` dict, the Socket.IO room membership
sets, and the SQLite `Message` table) is embedded explicitly, and every
socket event handler plus the history route becomes a pure function from a
state and an event payload to a new state and the list of emissions it
performs.  Machine-level concerns are modelled as follows: the SQLite
autoincrement id is a `Nat` counter in the state, server clock readings are
`Nat` values passed to each handler at its invocation, and room/ack
emissions are expanded into one `Event` per recipient connection.
-/

/-- Socket.IO session id of one live connection (`request.sid`). -/
abbrev SID := String

/-- The persisted `Message` row (`class Message(db.Model)` in `src/main.py`):
autoincrement integer primary key `id`, integer sender and receiver ids, the
body text, and the server-assigned UTC timestamp (`default=lambda:
datetime.now(timezone.utc)`), modelled as a `Nat` clock reading. -/
structure Message where
  id : Nat
  sender_id : Int
  receiver_id : Int
  message : String
  timestamp : Nat
deriving DecidableEq

/-- One server-to-client emission (`emit(event, payload, ...)` in the
handlers), tagged with the single recipient connection it goes to; an
emission addressed to a whole room is modelled as one `Event` per member. -/
inductive Event where
  | connected (dst : SID) (message : String)
  | system (dst : SID) (message : String) (timestamp : Nat)
  | joined_room (dst : SID) (room : String) (message : String) (timestamp : Nat)
  | receive_message (dst : SID) (sender_id : Int) (receiver_id : Int)
      (message : String) (timestamp : Nat) (message_id : Nat)
  | message_sent (dst : SID) (message : String) (timestamp : Nat) (message_id : Nat)
  | error (dst : SID) (message : String)
deriving DecidableEq

/-- Whole-server state: the `connected_users` dict (a Python dict, i.e. an
insertion-ordered association list with unique keys), the Socket.IO room
membership sets, and the `Message` table together with the next autoincrement
id. -/
structure ServerState where
  connected_users : List (String × SID)
  rooms : List (String × List SID)
  store : List Message
  nextId : Nat
deriving DecidableEq

/-- Python dict lookup `d[k]` / `d.get(k)`: the (unique) entry with that key. -/
def dictGet {α : Type} (d : List (String × α)) (k : String) : Option α :=
  (d.find? (fun p => p.1 == k)).map (fun p => p.2)

/-- Python dict assignment `d[k] = v`: replaces the value in place when the
key is already present (keeping its insertion position), otherwise appends a
new entry at the end. -/
def dictSet {α : Type} (d : List (String × α)) (k : String) (v : α) :
    List (String × α) :=
  if d.any (fun p => p.1 == k) then d.map (fun p => if p.1 == k then (k, v) else p)
  else d ++ [(k, v)]

/-- Python `del d[k]`. -/
def dictDel {α : Type} (d : List (String × α)) (k : String) : List (String × α) :=
  d.filter (fun p => p.1 != k)

/-- Members of a Socket.IO room (empty when the room was never joined). -/
def roomMembers (rooms : List (String × List SID)) (room : String) : List SID :=
  (dictGet rooms room).getD []

/-- Socket.IO `join_room(room)`: adds the calling connection to the room's
membership set (idempotent when already a member). -/
def joinRoom (rooms : List (String × List SID)) (room : String) (sid : SID) :
    List (String × List SID) :=
  let ms := roomMembers rooms room
  if sid ∈ ms then rooms else dictSet rooms room (ms ++ [sid])

/-- Socket.IO disconnect cleanup: the library removes a closed connection
from every room it was a member of (this runs together with the
`handle_disconnect` handler; the handler itself never calls `leave_room`). -/
def leaveAllRooms (rooms : List (String × List SID)) (sid : SID) :
    List (String × List SID) :=
  rooms.map (fun p => (p.1, p.2.filter (fun x => x != sid)))

/-- `get_room(user1, user2)` from `src/main.py`: the deterministic two-party
room id, Python `f"room_{min(user1, user2)}_{max(user1, user2)}"`. -/
def get_room (user1 user2 : Int) : String :=
  "room_" ++ toString (min user1 user2) ++ "_" ++ toString (max user1 user2)

/-- `handle_connect` (`@socketio.on("connect")`): when the query string
carries a truthy `userId` (present and non-empty), registers it in
`connected_users` and emits a private `connected` acknowledgement; otherwise
the handler body is skipped entirely and the connection stays open,
anonymous. -/
def handle_connect (st : ServerState) (sid : SID) (userId : Option String) :
    ServerState × List Event :=
  match userId with
  | some u =>
    if u = "" then (st, [])
    else ({ st with connected_users := dictSet st.connected_users u sid },
          [Event.connected sid "Connected to chat server"])
  | none => (st, [])

/-- `handle_disconnect` (`@socketio.on("disconnect")`): scans
`connected_users` in insertion order for the first user id mapped to the
disconnecting `request.sid` and deletes that entry; emits nothing.  The
Socket.IO runtime additionally removes the connection from every room
(`leaveAllRooms`). -/
def handle_disconnect (st : ServerState) (sid : SID) : ServerState × List Event :=
  let users :=
    match (st.connected_users.find? (fun p => p.2 == sid)).map (fun p => p.1) with
    | some uid => dictDel st.connected_users uid
    | none => st.connected_users
  ({ st with connected_users := users, rooms := leaveAllRooms st.rooms sid }, [])

/-- Payload of a `join` event; a `none` field models a key whose extraction
or `int(...)` conversion raises, which the handler's `except` turns into a
private `error`. -/
structure JoinData where
  sender_id : Option Int
  receiver_id : Option Int
  sender_username : Option String
deriving DecidableEq

/-- Payload of a `send_message` event.  `client_timestamp` stands for any
extra client-supplied field (such as a timestamp) that the handler never
reads. -/
structure SendData where
  sender_id : Option Int
  receiver_id : Option Int
  message : Option String
  client_timestamp : Option String
deriving DecidableEq

/-- `handle_join` (`@socketio.on("join")`): extracts and validates the
payload, joins the deterministic room, broadcasts a `system` notice to every
member of that room (the joiner included, since `join_room` runs first), then
sends a private `joined_room` confirmation to the joiner; any extraction
failure is caught and yields a single private `error`.  `now` is the server
clock at the handler's `datetime.now(timezone.utc)` calls. -/
def handle_join (st : ServerState) (sid : SID) (now : Nat) (d : JoinData) :
    ServerState × List Event :=
  match d.sender_id, d.receiver_id, d.sender_username with
  | some s, some r, some name =>
    let room := get_room s r
    let rooms := joinRoom st.rooms room sid
    let mems := roomMembers rooms room
    ({ st with rooms := rooms },
      mems.map (fun m => Event.system m (name ++ " joined the chat") now) ++
        [Event.joined_room sid room ("You joined chat with user " ++ toString r) now])
  | _, _, _ => (st, [Event.error sid "Failed to join room"])

/-- Python `str.strip()` as used on the message body: drop leading and
trailing whitespace characters. -/
def pyStrip (s : String) : String :=
  String.mk ((s.data.dropWhile Char.isWhitespace).reverse.dropWhile Char.isWhitespace).reverse

/-- `handle_send_message` (`@socketio.on("send_message")`): validates the
payload, rejects an empty-after-trim body with a private `error`, otherwise
persists the trimmed message with the server-assigned autoincrement id and
server timestamp, broadcasts `receive_message` to the room, then separately
acknowledges the sender with a private `message_sent`.  `deliverOk` models
the per-member transport outcome of the best-effort room fan-out
(`emit(..., to=room)` never raises on a member's delivery failure; a failing
member simply does not receive the event). -/
def handle_send_message (st : ServerState) (sid : SID) (now : Nat)
    (deliverOk : SID → Bool) (d : SendData) : ServerState × List Event :=
  match d.sender_id, d.receiver_id, d.message with
  | some s, some r, some body =>
    let t := pyStrip body
    if t = "" then (st, [Event.error sid "Message cannot be empty"])
    else
      let msg : Message := ⟨st.nextId, s, r, t, now⟩
      let st' := { st with store := st.store ++ [msg], nextId := st.nextId + 1 }
      let room := get_room s r
      let mems := roomMembers st'.rooms room
      (st',
        (mems.filter deliverOk).map
            (fun m => Event.receive_message m s r t now msg.id) ++
          [Event.message_sent sid "Message delivered" now msg.id])
  | _, _, _ => (st, [Event.error sid "Failed to send message"])

/-- The filter of the history route: the row travels between `user1` and
`user2` in either direction. -/
def betweenUsers (user1 user2 : Int) (m : Message) : Bool :=
  (m.sender_id == user1 && m.receiver_id == user2) ||
    (m.sender_id == user2 && m.receiver_id == user1)

/-- `GET /messages/<user1>/<user2>` (`get_messages`), modelled relationally:
the route filters both directions of the pair and orders by `timestamp`
ascending only; SQL leaves the relative order of rows whose order-by keys
compare equal undefined, and the route never sorts by id, so the route may
return any timestamp-sorted permutation of the filtered rows.
`get_messages user1 user2 store result` holds precisely of the result
sequences the route may produce on table `store`. -/
def get_messages (user1 user2 : Int) (store result : List Message) : Prop :=
  result.Perm (store.filter (betweenUsers user1 user2)) ∧
  result.Pairwise (fun m1 m2 => m1.timestamp ≤ m2.timestamp)

/-- One client-side stimulus as delivered to the server's event handlers;
`now` is the server clock reading when the handler runs. -/
inductive ClientEvent where
  | connect (sid : SID) (userId : Option String)
  | disconnect (sid : SID)
  | join (sid : SID) (now : Nat) (d : JoinData)
  | send (sid : SID) (now : Nat) (deliverOk : SID → Bool) (d : SendData)

/-- Dispatch one event to its handler. -/
def step (st : ServerState) (e : ClientEvent) : ServerState × List Event :=
  match e with
  | .connect sid u => handle_connect st sid u
  | .disconnect sid => handle_disconnect st sid
  | .join sid now d => handle_join st sid now d
  | .send sid now ok d => handle_send_message st sid now ok d

/-- Server state after a whole trace of events.  Handlers run atomically
against the shared state, so any interleaving of concurrent clients is some
such trace. -/
def run (st : ServerState) : List ClientEvent → ServerState
  | [] => st
  | e :: es => run (step st e).1 es

/-- Fresh server: empty presence dict, no rooms, empty table, autoincrement
ids starting at 1 (SQLite). -/
def initState : ServerState := ⟨[], [], [], 1⟩

/-- Ordering claimed for the history result: ascending timestamp, ties
broken by ascending id. -/
def tsIdLt (m1 m2 : Message) : Prop :=
  m1.timestamp < m2.timestamp ∨ (m1.timestamp = m2.timestamp ∧ m1.id < m2.id)

/-- Timestamp field carried by an emitted event, when it has one. -/
def eventTime : Event → Option Nat
  | .system _ _ ts => some ts
  | .joined_room _ _ _ ts => some ts
  | .receive_message _ _ _ _ ts _ => some ts
  | .message_sent _ _ ts _ => some ts
  | .connected _ _ => none
  | .error _ _ => none

/-- Recipient connection of an emitted event. -/
def eventDst : Event → SID
  | .connected d _ => d
  | .system d _ _ => d
  | .joined_room d _ _ _ => d
  | .receive_message d _ _ _ _ _ => d
  | .message_sent d _ _ _ => d
  | .error d _ => d

/-- Whether an event is an `error` emission. -/
def isError : Event → Prop
  | .error _ _ => True
  | _ => False

/-- Most-significant-first decimal digit characters of a natural number: the
fuel-free specification of core's `Nat.toDigitsCore` at base 10, used to
reason about the decimal rendering inside `get_room`. -/
def digitsOf (n : Nat) : List Char :=
  if n / 10 = 0 then [Nat.digitChar (n % 10)]
  else digitsOf (n / 10) ++ [Nat.digitChar (n % 10)]
termination_by n
decreasing_by omega

/-- Numeric value of a decimal digit character. -/
def digitVal (c : Char) : Nat := c.toNat - 48

/-- Value of a most-significant-first decimal digit string. -/
def digitsVal (l : List Char) : Nat := l.foldl (fun a c => 10 * a + digitVal c) 0

/-- The ten decimal digit characters. -/
def decDigits : List Char := ['0', '1', '2', '3', '4', '5', '6', '7', '8', '9']

theorem data_append (s t : String) : (s ++ t).data = s.data ++ t.data := by
  cases s; cases t; rfl

theorem string_eq_of_data {s t : String} (h : s.data = t.data) : s = t := by
  cases s; cases t; exact congrArg String.mk h

theorem find?_map_keyUpdate {α : Type} (d : List (String × α)) (k : String) (v : α)
    (h : d.any (fun p => p.1 == k) = true) :
    (d.map (fun p => if p.1 == k then (k, v) else p)).find? (fun p => p.1 == k) =
      some (k, v) := by
  induction d with
  | nil => simp at h
  | cons a t ih =>
    rw [List.map_cons]
    by_cases ha : (a.1 == k) = true
    · rw [if_pos ha, List.find?_cons_of_pos _ (by simp)]
    · have ht : t.any (fun p => p.1 == k) = true := by
        simp only [List.any_cons, ha, Bool.false_or] at h
        exact h
      rw [if_neg ha, List.find?_cons_of_neg _ (by simpa using ha)]
      exact ih ht

theorem dictGet_dictSet {α : Type} (d : List (String × α)) (k : String) (v : α) :
    dictGet (dictSet d k v) k = some v := by
  by_cases h : d.any (fun p => p.1 == k) = true
  · unfold dictGet dictSet
    rw [if_pos h, find?_map_keyUpdate d k v h]
    rfl
  · have hnone : d.find? (fun p => p.1 == k) = none := by
      rw [List.find?_eq_none]
      intro x hx hpx
      exact h (List.any_eq_true.mpr ⟨x, hx, hpx⟩)
    unfold dictGet dictSet
    rw [if_neg h, List.find?_append, hnone]
    simp

theorem dictGet_dictDel {α : Type} (d : List (String × α)) (k : String) :
    dictGet (dictDel d k) k = none := by
  unfold dictGet dictDel
  have hnone : (d.filter (fun p => p.1 != k)).find? (fun p => p.1 == k) = none := by
    rw [List.find?_eq_none]
    intro x hx hpx
    have hne := List.of_mem_filter hx
    simp only [bne_iff_ne, ne_eq] at hne
    exact hne (by simpa using hpx)
  rw [hnone]
  rfl

theorem mem_of_dictGet {α : Type} {d : List (String × α)} {k : String} {v : α}
    (h : dictGet d k = some v) : (k, v) ∈ d := by
  unfold dictGet at h
  obtain ⟨q, hq, hv⟩ := Option.map_eq_some'.mp h
  have hmem := List.mem_of_find?_eq_some hq
  have hpred := List.find?_some hq
  have hk : q.1 = k := by simpa using hpred
  have hqe : q = (k, v) := by
    cases q
    simp only at hk hv
    rw [hk, hv]
  rw [← hqe]
  exact hmem

theorem dictGet_of_mem {α : Type} {d : List (String × α)} {k : String} {v : α}
    (hnd : (d.map Prod.fst).Nodup) (hm : (k, v) ∈ d) : dictGet d k = some v := by
  induction d with
  | nil => simp at hm
  | cons a t ih =>
    rw [List.map_cons] at hnd
    have hnd' := List.nodup_cons.mp hnd
    rcases List.mem_cons.mp hm with h | h
    · rw [← h]
      unfold dictGet
      rw [List.find?_cons_of_pos (p := fun q : String × α => q.1 == k) _ (by simp)]
      rfl
    · have hk : k ∈ t.map Prod.fst := List.mem_map.mpr ⟨(k, v), h, rfl⟩
      have ha : ¬(((a.1 == k) : Bool) = true) := by
        simp only [beq_iff_eq]
        intro he
        exact hnd'.1 (he ▸ hk)
      unfold dictGet
      rw [List.find?_cons_of_neg (p := fun q : String × α => q.1 == k) _ ha]
      exact ih hnd'.2 h

theorem roomMembers_dictSet (rooms : List (String × List SID)) (room : String)
    (l : List SID) : roomMembers (dictSet rooms room l) room = l := by
  unfold roomMembers
  rw [dictGet_dictSet]
  rfl

theorem roomMembers_joinRoom (rooms : List (String × List SID)) (room : String)
    (sid : SID) :
    roomMembers (joinRoom rooms room sid) room =
      if sid ∈ roomMembers rooms room then roomMembers rooms room
      else roomMembers rooms room ++ [sid] := by
  unfold joinRoom
  by_cases h : sid ∈ roomMembers rooms room
  · simp [h]
  · simp [h, roomMembers_dictSet]

theorem roomMembers_leaveAllRooms (rooms : List (String × List SID)) (sid : SID)
    (room : String) :
    roomMembers (leaveAllRooms rooms sid) room =
      (roomMembers rooms room).filter (fun x => x != sid) := by
  unfold roomMembers leaveAllRooms dictGet
  induction rooms with
  | nil => rfl
  | cons a t ih =>
    by_cases ha : (a.1 == room) = true
    · rw [List.map_cons,
        List.find?_cons_of_pos (p := fun q : String × List SID => q.1 == room) _ (by simpa using ha),
        List.find?_cons_of_pos (p := fun q : String × List SID => q.1 == room) _ ha]
      rfl
    · rw [List.map_cons,
        List.find?_cons_of_neg (p := fun q : String × List SID => q.1 == room) _ (by simpa using ha),
        List.find?_cons_of_neg (p := fun q : String × List SID => q.1 == room) _ ha]
      exact ih

/-- Case analysis of the send handler: either some validation failed (or the
body was empty after trimming) and the result is the unchanged state with a
single private error, or everything validated and the result is the append
plus the room fan-out followed by the private acknowledgement. -/
theorem handle_send_message_eq (st : ServerState) (sid : SID) (now : Nat)
    (ok : SID → Bool) (d : SendData) :
    (∃ emsg, handle_send_message st sid now ok d = (st, [Event.error sid emsg])) ∨
    ∃ s r body, d.sender_id = some s ∧ d.receiver_id = some r ∧
      d.message = some body ∧ pyStrip body ≠ "" ∧
      handle_send_message st sid now ok d =
        ({ st with
            store := st.store ++ [⟨st.nextId, s, r, pyStrip body, now⟩]
            nextId := st.nextId + 1 },
          ((roomMembers st.rooms (get_room s r)).filter ok).map
              (fun m => Event.receive_message m s r (pyStrip body) now st.nextId) ++
            [Event.message_sent sid "Message delivered" now st.nextId]) := by
  rcases d with ⟨s, r, m, ct⟩
  rcases s with _ | s
  · exact Or.inl ⟨_, rfl⟩
  rcases r with _ | r
  · exact Or.inl ⟨_, rfl⟩
  rcases m with _ | body
  · exact Or.inl ⟨_, rfl⟩
  by_cases hb : pyStrip body = ""
  · exact Or.inl ⟨"Message cannot be empty", by simp [handle_send_message, hb]⟩
  · exact Or.inr ⟨s, r, body, rfl, rfl, rfl, hb, by simp [handle_send_message, hb]⟩

/-- C10: a connect event carrying no participant id leaves the whole server
state (in particular the presence registry) unchanged and emits no event at
all, not even the `connected` acknowledgement; nothing closes the
connection. -/
theorem connect_without_id_is_noop (st : ServerState) (sid : SID) :
    handle_connect st sid none = (st, []) := rfl

/-- C4: a send event whose body is empty after trimming persists nothing
(the state is unchanged) and emits exactly one event, an `error` addressed
to the sending connection. -/
theorem empty_body_send_rejected (st : ServerState) (sid : SID) (now : Nat)
    (deliverOk : SID → Bool) (d : SendData) (body : String)
    (hm : d.message = some body) (hb : pyStrip body = "") :
    (handle_send_message st sid now deliverOk d).1 = st ∧
    ∃ emsg, (handle_send_message st sid now deliverOk d).2 =
      [Event.error sid emsg] := by
  rcases d with ⟨s, r, m, ct⟩
  simp only at hm
  subst hm
  cases s <;> cases r <;> simp [handle_send_message, hb]

/-- Witness for C4: a two-space body is rejected against the fresh server,
leaving the state unchanged and producing one error to the sender. -/
theorem empty_body_send_rejected_w :
    (SendData.mk (some 1) (some 2) (some "  ") none).message = some "  " ∧
    pyStrip "  " = "" ∧
    ((handle_send_message initState "A" 0 (fun _ => true)
        (SendData.mk (some 1) (some 2) (some "  ") none)).1 = initState ∧
      ∃ emsg, (handle_send_message initState "A" 0 (fun _ => true)
        (SendData.mk (some 1) (some 2) (some "  ") none)).2 =
          [Event.error "A" emsg]) :=
  ⟨rfl, by decide,
    empty_body_send_rejected initState "A" 0 (fun _ => true) _ "  " rfl (by decide)⟩

/-- C9: the send handler's entire result is independent of any
client-supplied timestamp field, every message it adds to the store carries
the server clock reading at the durable write, and every timestamp it emits
is that same server clock reading. -/
theorem send_ignores_client_timestamp (st : ServerState) (sid : SID) (now : Nat)
    (deliverOk : SID → Bool) (d : SendData) (t : Option String) :
    handle_send_message st sid now deliverOk { d with client_timestamp := t } =
      handle_send_message st sid now deliverOk d ∧
    (∀ m ∈ (handle_send_message st sid now deliverOk d).1.store,
      m ∈ st.store ∨ m.timestamp = now) ∧
    (∀ e ∈ (handle_send_message st sid now deliverOk d).2,
      eventTime e = none ∨ eventTime e = some now) := by
  refine ⟨?_, ?_, ?_⟩
  · rcases d with ⟨s, r, m, ct⟩
    rfl
  · intro m hm
    rcases handle_send_message_eq st sid now deliverOk d with
      ⟨emsg, he⟩ | ⟨s, r, body, _, _, _, _, he⟩
    · rw [he] at hm
      exact Or.inl hm
    · rw [he] at hm
      rcases List.mem_append.mp hm with h | h
      · exact Or.inl h
      · rw [List.mem_singleton] at h
        rw [h]
        exact Or.inr rfl
  · intro e he
    rcases handle_send_message_eq st sid now deliverOk d with
      ⟨emsg, hev⟩ | ⟨s, r, body, _, _, _, _, hev⟩
    · rw [hev] at he
      rw [List.mem_singleton] at he
      rw [he]
      exact Or.inl rfl
    · rw [hev] at he
      rcases List.mem_append.mp he with h | h
      · obtain ⟨x, _, hx⟩ := List.mem_map.mp h
        rw [← hx]
        exact Or.inr rfl
      · rw [List.mem_singleton] at h
        rw [h]
        exact Or.inr rfl

/-- C3: on a successful send, the persisted message (server id and
timestamp) is in the store and the private `message_sent` acknowledgement
carrying that timestamp and id is emitted exactly once — for every possible
per-member outcome `deliverOk` of the best-effort room fan-out, in
particular when every broadcast delivery fails. -/
theorem ack_independent_of_broadcast (st : ServerState) (sid : SID) (now : Nat)
    (deliverOk : SID → Bool) (d : SendData) (s r : Int) (body : String)
    (hs : d.sender_id = some s) (hr : d.receiver_id = some r)
    (hm : d.message = some body) (hne : pyStrip body ≠ "") :
    (⟨st.nextId, s, r, pyStrip body, now⟩ : Message) ∈
      (handle_send_message st sid now deliverOk d).1.store ∧
    ((handle_send_message st sid now deliverOk d).2.count
      (Event.message_sent sid "Message delivered" now st.nextId)) = 1 := by
  rcases d with ⟨s0, r0, m0, ct⟩
  simp only at hs hr hm
  subst hs
  subst hr
  subst hm
  constructor
  · simp [handle_send_message, hne]
  · simp only [handle_send_message, if_neg hne]
    rw [List.count_append]
    have h0 : (((roomMembers st.rooms (get_room s r)).filter deliverOk).map
        (fun m => Event.receive_message m s r (pyStrip body) now st.nextId)).count
        (Event.message_sent sid "Message delivered" now st.nextId) = 0 := by
      rw [List.count_eq_zero]
      intro hmem
      obtain ⟨x, _, hx⟩ := List.mem_map.mp hmem
      simp at hx
    rw [h0]
    simp

/-- Witness for C3: two members in the room, every fan-out delivery fails
(`fun _ => false`), yet the message is persisted and the acknowledgement to
the sender is still emitted exactly once. -/
theorem ack_independent_of_broadcast_w :
    (SendData.mk (some 1) (some 2) (some " hi ") (some "2020-01-01")).sender_id =
      some 1 ∧
    (SendData.mk (some 1) (some 2) (some " hi ") (some "2020-01-01")).receiver_id =
      some 2 ∧
    (SendData.mk (some 1) (some 2) (some " hi ") (some "2020-01-01")).message =
      some " hi " ∧
    pyStrip " hi " ≠ "" ∧
    ((⟨(ServerState.mk [("1", "A"), ("2", "B")] [("room_1_2", ["A", "B"])] [] 1).nextId,
        1, 2, pyStrip " hi ", 7⟩ : Message) ∈
      (handle_send_message
        (ServerState.mk [("1", "A"), ("2", "B")] [("room_1_2", ["A", "B"])] [] 1)
        "A" 7 (fun _ => false)
        (SendData.mk (some 1) (some 2) (some " hi ") (some "2020-01-01"))).1.store ∧
    ((handle_send_message
        (ServerState.mk [("1", "A"), ("2", "B")] [("room_1_2", ["A", "B"])] [] 1)
        "A" 7 (fun _ => false)
        (SendData.mk (some 1) (some 2) (some " hi ") (some "2020-01-01"))).2.count
      (Event.message_sent "A" "Message delivered" 7
        (ServerState.mk [("1", "A"), ("2", "B")] [("room_1_2", ["A", "B"])] [] 1).nextId)) = 1) :=
  ⟨rfl, rfl, rfl, by decide,
    ack_independent_of_broadcast _ "A" 7 (fun _ => false) _ 1 2 " hi " rfl rfl rfl
      (by decide)⟩

/-- C6: a join with valid sender id, receiver id and display name emits one
`system` notice to each member of the joined room — the joiner being a
member — followed by exactly one private `joined_room` confirmation
addressed to the joiner only; room membership sets stay duplicate-free, so
every current member receives the notice exactly once. -/
theorem join_notice_and_confirmation (st : ServerState) (sid : SID) (now : Nat)
    (s r : Int) (name : String)
    (hnd : ∀ room, (roomMembers st.rooms room).Nodup) :
    sid ∈ roomMembers (handle_join st sid now ⟨some s, some r, some name⟩).1.rooms
      (get_room s r) ∧
    (roomMembers (handle_join st sid now ⟨some s, some r, some name⟩).1.rooms
      (get_room s r)).Nodup ∧
    (handle_join st sid now ⟨some s, some r, some name⟩).2 =
      (roomMembers (handle_join st sid now ⟨some s, some r, some name⟩).1.rooms
          (get_room s r)).map
          (fun m => Event.system m (name ++ " joined the chat") now) ++
        [Event.joined_room sid (get_room s r)
          ("You joined chat with user " ++ toString r) now] := by
  have h1 : (handle_join st sid now ⟨some s, some r, some name⟩).1.rooms =
      joinRoom st.rooms (get_room s r) sid := rfl
  refine ⟨?_, ?_, rfl⟩
  · rw [h1, roomMembers_joinRoom]
    by_cases h : sid ∈ roomMembers st.rooms (get_room s r)
    · rw [if_pos h]
      exact h
    · rw [if_neg h]
      simp
  · rw [h1, roomMembers_joinRoom]
    by_cases h : sid ∈ roomMembers st.rooms (get_room s r)
    · rw [if_pos h]
      exact hnd _
    · rw [if_neg h]
      simp [List.nodup_append, hnd (get_room s r), h]

/-- Witness for C6: the first join on a fresh server, whose room membership
sets are trivially duplicate-free. -/
theorem join_notice_and_confirmation_w :
    (∀ room, (roomMembers initState.rooms room).Nodup) ∧
    ("A" ∈ roomMembers
        (handle_join initState "A" 0 ⟨some 1, some 2, some "Alice"⟩).1.rooms
        (get_room 1 2) ∧
      (roomMembers (handle_join initState "A" 0 ⟨some 1, some 2, some "Alice"⟩).1.rooms
        (get_room 1 2)).Nodup ∧
      (handle_join initState "A" 0 ⟨some 1, some 2, some "Alice"⟩).2 =
        (roomMembers (handle_join initState "A" 0 ⟨some 1, some 2, some "Alice"⟩).1.rooms
            (get_room 1 2)).map
            (fun m => Event.system m ("Alice" ++ " joined the chat") 0) ++
          [Event.joined_room "A" (get_room 1 2)
            ("You joined chat with user " ++ toString (2 : Int)) 0]) := by
  have hnd0 : ∀ room, (roomMembers initState.rooms room).Nodup := by
    intro room
    simp [initState, roomMembers, dictGet]
  exact ⟨hnd0, join_notice_and_confirmation initState "A" 0 1 2 "Alice" hnd0⟩

/-- C7: when the disconnecting connection is the one registered for user
`uid` (session ids are unique across registry values, as transport sids
are), the disconnect removes that presence entry — a later lookup of `uid`
finds nothing — removes the connection from every room membership, and
emits no event to anyone. -/
theorem disconnect_cleans_up (st : ServerState) (sid : SID) (uid : String)
    (hkeys : (st.connected_users.map Prod.fst).Nodup)
    (hreg : dictGet st.connected_users uid = some sid)
    (huniq : ∀ u, dictGet st.connected_users u = some sid → u = uid) :
    dictGet (handle_disconnect st sid).1.connected_users uid = none ∧
    (∀ room, sid ∉ roomMembers (handle_disconnect st sid).1.rooms room) ∧
    (handle_disconnect st sid).2 = [] := by
  have hmem : (uid, sid) ∈ st.connected_users := mem_of_dictGet hreg
  have hsome : (st.connected_users.find? (fun p => p.2 == sid)).isSome := by
    rw [List.find?_isSome]
    exact ⟨(uid, sid), hmem, by simp⟩
  obtain ⟨q, hq⟩ := Option.isSome_iff_exists.mp hsome
  have hqmem : q ∈ st.connected_users := List.mem_of_find?_eq_some hq
  have hqpred := List.find?_some hq
  have hqsid : q.2 = sid := by simpa using hqpred
  have hget : dictGet st.connected_users q.1 = some q.2 :=
    dictGet_of_mem hkeys (by simpa using hqmem)
  have huid : q.1 = uid := huniq q.1 (by rw [hget, hqsid])
  have husers : (handle_disconnect st sid).1.connected_users =
      dictDel st.connected_users uid := by
    simp only [handle_disconnect, hq, Option.map_some']
    rw [huid]
  refine ⟨?_, ?_, rfl⟩
  · rw [husers]
    exact dictGet_dictDel _ _
  · intro room
    have hrooms : (handle_disconnect st sid).1.rooms =
        leaveAllRooms st.rooms sid := rfl
    rw [hrooms, roomMembers_leaveAllRooms]
    simp

/-- Witness for C7: user 7 registered on connection S, which is also a
member of a room with another connection; its disconnect clears both. -/
theorem disconnect_cleans_up_w :
    ((ServerState.mk [("7", "S")] [("room_1_2", ["S", "B"])] [] 1).connected_users.map
      Prod.fst).Nodup ∧
    dictGet (ServerState.mk [("7", "S")] [("room_1_2", ["S", "B"])] [] 1).connected_users
      "7" = some "S" ∧
    (∀ u, dictGet (ServerState.mk [("7", "S")] [("room_1_2", ["S", "B"])] [] 1).connected_users
      u = some "S" → u = "7") ∧
    (dictGet (handle_disconnect
        (ServerState.mk [("7", "S")] [("room_1_2", ["S", "B"])] [] 1) "S").1.connected_users
      "7" = none ∧
    (∀ room, "S" ∉ roomMembers (handle_disconnect
        (ServerState.mk [("7", "S")] [("room_1_2", ["S", "B"])] [] 1) "S").1.rooms room) ∧
    (handle_disconnect (ServerState.mk [("7", "S")] [("room_1_2", ["S", "B"])] [] 1) "S").2 =
      []) := by
  have huniq : ∀ u, dictGet
      (ServerState.mk [("7", "S")] [("room_1_2", ["S", "B"])] [] 1).connected_users u =
      some "S" → u = "7" := by
    intro u h
    by_cases h7 : "7" = u
    · exact h7.symm
    · unfold dictGet at h
      rw [List.find?_cons_of_neg (p := fun q : String × SID => q.1 == u) _
        (by simpa using h7)] at h
      simp at h
  exact ⟨by decide, by decide, huniq,
    disconnect_cleans_up _ "S" "7" (by decide) (by decide) huniq⟩

/-- Keys of the presence dict are pairwise distinct (the Python dict
invariant). -/
def keysNodup (st : ServerState) : Prop :=
  (st.connected_users.map Prod.fst).Nodup

theorem keysNodup_dictSet {α : Type} (d : List (String × α)) (k : String) (v : α)
    (h : (d.map Prod.fst).Nodup) : ((dictSet d k v).map Prod.fst).Nodup := by
  unfold dictSet
  by_cases hc : d.any (fun p => p.1 == k) = true
  · rw [if_pos hc]
    have heq : (d.map (fun p => if p.1 == k then (k, v) else p)).map Prod.fst =
        d.map Prod.fst := by
      rw [List.map_map]
      apply List.map_congr_left
      intro p _
      by_cases hp : (p.1 == k) = true
      · simp only [Function.comp_apply, hp, if_pos]
        exact (eq_of_beq hp).symm
      · simp only [Function.comp_apply]
        rw [if_neg (by simpa using hp)]
    rw [heq]
    exact h
  · rw [if_neg hc, List.map_append]
    have hk : k ∉ d.map Prod.fst := by
      intro hmem
      obtain ⟨p, hp, hpk⟩ := List.mem_map.mp hmem
      exact hc (List.any_eq_true.mpr ⟨p, hp, by simp [hpk]⟩)
    simp [List.nodup_append, h, hk]

theorem keysNodup_step (st : ServerState) (e : ClientEvent) (h : keysNodup st) :
    keysNodup (step st e).1 := by
  cases e with
  | connect sid u =>
    rcases u with _ | u
    · exact h
    · by_cases hu : u = ""
      · simpa [step, handle_connect, hu] using h
      · have := keysNodup_dictSet st.connected_users u sid h
        simpa [step, handle_connect, hu, keysNodup] using this
  | disconnect sid =>
    unfold keysNodup at h ⊢
    cases hfind : (st.connected_users.find? (fun p => p.2 == sid)).map
        (fun p => p.1) with
    | none => simpa [step, handle_disconnect, hfind] using h
    | some uid =>
      have hsub : ((dictDel st.connected_users uid).map Prod.fst).Nodup := by
        unfold dictDel
        exact List.Nodup.sublist (List.Sublist.map _ (List.filter_sublist _)) h
      simpa [step, handle_disconnect, hfind] using hsub
  | join sid now d =>
    rcases d with ⟨s, r, n⟩
    cases s <;> cases r <;> cases n <;> exact h
  | send sid now ok d =>
    rcases handle_send_message_eq st sid now ok d with
      ⟨emsg, he⟩ | ⟨s, r, body, _, _, _, _, he⟩
    · show keysNodup (handle_send_message st sid now ok d).1
      rw [he]
      exact h
    · show keysNodup (handle_send_message st sid now ok d).1
      rw [he]
      exact h

theorem keysNodup_run (st : ServerState) (evs : List ClientEvent)
    (h : keysNodup st) : keysNodup (run st evs) := by
  induction evs generalizing st with
  | nil => exact h
  | cons e es ih => exact ih _ (keysNodup_step st e h)

/-- C8: the presence registry maps each identifier to at most one
connection: registering a key that is already present unconditionally
replaces its value, and after any trace of connect/disconnect (and other)
events every identifier occurs at most once among the registry keys. -/
theorem presence_at_most_one :
    (∀ (d : List (String × SID)) (k : String) (v : SID),
      dictGet (dictSet d k v) k = some v) ∧
    (∀ (evs : List ClientEvent) (u : String),
      ((run initState evs).connected_users.map Prod.fst).count u ≤ 1) := by
  refine ⟨fun d k v => dictGet_dictSet d k v, fun evs u => ?_⟩
  have h : keysNodup (run initState evs) :=
    keysNodup_run initState evs (by simp [keysNodup, initState])
  exact List.nodup_iff_count_le_one.mp h u

/-- Store invariant: ids strictly increase along the table and stay below
the autoincrement counter. -/
def idsOk (st : ServerState) : Prop :=
  (st.store.map Message.id).Pairwise (· < ·) ∧ ∀ m ∈ st.store, m.id < st.nextId

theorem idsOk_step (st : ServerState) (e : ClientEvent) (h : idsOk st) :
    idsOk (step st e).1 := by
  cases e with
  | connect sid u =>
    rcases u with _ | u
    · exact h
    · by_cases hu : u = "" <;> simpa [step, handle_connect, hu, idsOk] using h
  | disconnect sid => exact h
  | join sid now d =>
    rcases d with ⟨s, r, n⟩
    cases s <;> cases r <;> cases n <;> exact h
  | send sid now ok d =>
    rcases handle_send_message_eq st sid now ok d with
      ⟨emsg, he⟩ | ⟨s, r, body, _, _, _, _, he⟩
    · show idsOk (handle_send_message st sid now ok d).1
      rw [he]
      exact h
    · show idsOk (handle_send_message st sid now ok d).1
      rw [he]
      constructor
      · rw [List.map_append, List.pairwise_append]
        refine ⟨h.1, by simp, ?_⟩
        intro x hx y hy
        simp only [List.map_cons, List.map_nil, List.mem_singleton] at hy
        subst hy
        obtain ⟨m, hm, rfl⟩ := List.mem_map.mp hx
        exact h.2 m hm
      · intro m hm
        rcases List.mem_append.mp hm with hm | hm
        · exact Nat.lt_succ_of_lt (h.2 m hm)
        · rw [List.mem_singleton] at hm
          rw [hm]
          exact Nat.lt_succ_self _

theorem idsOk_run (st : ServerState) (evs : List ClientEvent) (h : idsOk st) :
    idsOk (run st evs) := by
  induction evs generalizing st with
  | nil => exact h
  | cons e es ih => exact ih _ (idsOk_step st e h)

/-- C5: over any trace of events the persisted ids strictly increase in
append order — a message appended after another always gets a strictly
greater id — and no two messages ever share an id.  Handlers run atomically
against the shared state, so any interleaving of concurrent sends from
different connections is one such trace. -/
theorem message_ids_strictly_increasing (evs : List ClientEvent) :
    ((run initState evs).store.map Message.id).Pairwise (· < ·) ∧
    ((run initState evs).store.map Message.id).Nodup := by
  have h : idsOk (run initState evs) :=
    idsOk_run initState evs (by constructor <;> simp [initState])
  exact ⟨h.1, h.1.imp Nat.ne_of_lt⟩

/-- Refutation input for C1: a two-row table holding both directions of the
(1, 2) conversation with equal timestamps; the sequence with the ids in
descending order is a result the route may return (it is a timestamp-sorted
permutation of the filtered rows), yet it is not ordered by timestamp with
ties broken by ascending id. -/
theorem get_messages_tie_not_id_ordered :
    get_messages 1 2 [⟨1, 1, 2, "hi", 5⟩, ⟨2, 2, 1, "yo", 5⟩]
      [⟨2, 2, 1, "yo", 5⟩, ⟨1, 1, 2, "hi", 5⟩] ∧
    ¬(([⟨2, 2, 1, "yo", 5⟩, ⟨1, 1, 2, "hi", 5⟩] : List Message).Pairwise tsIdLt) := by
  refine ⟨⟨by decide, by decide⟩, ?_⟩
  intro h
  have h1 := List.rel_of_pairwise_cons h (List.mem_cons_self _ _)
  simp [tsIdLt] at h1

/-- C1 (amended): for any result sequence the route may return, the result
holds exactly the stored messages whose sender/receiver pair matches the two
users in either direction — each exactly once, given the store invariant
that rowids strictly increase in table order — and is sorted ascending by
timestamp; the order among equal-timestamp rows is unspecified, and whenever
no two matching rows share a timestamp the result is fully sorted by
timestamp then id. -/
theorem get_messages_spec (store result : List Message) (a b : Int)
    (hid : store.Pairwise (fun m1 m2 => m1.id < m2.id))
    (hres : get_messages a b store result) :
    (∀ m, m ∈ result ↔
      m ∈ store ∧ ({m.sender_id, m.receiver_id} : Set Int) = {a, b}) ∧
    result.Pairwise (fun m1 m2 => m1.timestamp ≤ m2.timestamp) ∧
    result.Nodup ∧
    ((store.filter (betweenUsers a b)).Pairwise
        (fun m1 m2 => m1.timestamp ≠ m2.timestamp) →
      result.Pairwise tsIdLt) := by
  obtain ⟨hperm, hsort⟩ := hres
  have hfil_nodup : (store.filter (betweenUsers a b)).Nodup := by
    refine (hid.filter (betweenUsers a b)).imp ?_
    intro m1 m2 hx he
    rw [he] at hx
    exact absurd hx (lt_irrefl _)
  refine ⟨?_, hsort, hperm.nodup_iff.mpr hfil_nodup, ?_⟩
  · intro m
    rw [hperm.mem_iff, List.mem_filter]
    constructor
    · rintro ⟨hm, hb⟩
      refine ⟨hm, ?_⟩
      rw [Set.pair_eq_pair_iff]
      simp only [betweenUsers, Bool.or_eq_true, Bool.and_eq_true, beq_iff_eq] at hb
      exact hb
    · rintro ⟨hm, hb⟩
      refine ⟨hm, ?_⟩
      rw [Set.pair_eq_pair_iff] at hb
      simp only [betweenUsers, Bool.or_eq_true, Bool.and_eq_true, beq_iff_eq]
      exact hb
  · intro hne
    have hne' : result.Pairwise (fun m1 m2 => m1.timestamp ≠ m2.timestamp) :=
      (hperm.pairwise_iff (fun hx => Ne.symm hx)).mpr hne
    refine (hsort.and hne').imp ?_
    intro m1 m2 hx
    exact Or.inl (lt_of_le_of_ne hx.1 hx.2)

/-- Witness for C1 (amended) at a concrete three-row table containing both
directions of the (1, 2) conversation and an unrelated row, with the
id-ordered result sequence. -/
theorem get_messages_spec_w :
    ([⟨1, 1, 2, "hi", 5⟩, ⟨2, 2, 1, "yo", 6⟩, ⟨3, 3, 1, "x", 7⟩] :
        List Message).Pairwise (fun m1 m2 => m1.id < m2.id) ∧
    get_messages 1 2 [⟨1, 1, 2, "hi", 5⟩, ⟨2, 2, 1, "yo", 6⟩, ⟨3, 3, 1, "x", 7⟩]
      [⟨1, 1, 2, "hi", 5⟩, ⟨2, 2, 1, "yo", 6⟩] ∧
    ((∀ m, m ∈ ([⟨1, 1, 2, "hi", 5⟩, ⟨2, 2, 1, "yo", 6⟩] : List Message) ↔
      m ∈ ([⟨1, 1, 2, "hi", 5⟩, ⟨2, 2, 1, "yo", 6⟩, ⟨3, 3, 1, "x", 7⟩] :
          List Message) ∧
        ({m.sender_id, m.receiver_id} : Set Int) = {1, 2}) ∧
    ([⟨1, 1, 2, "hi", 5⟩, ⟨2, 2, 1, "yo", 6⟩] : List Message).Pairwise
      (fun m1 m2 => m1.timestamp ≤ m2.timestamp) ∧
    ([⟨1, 1, 2, "hi", 5⟩, ⟨2, 2, 1, "yo", 6⟩] : List Message).Nodup ∧
    ((([⟨1, 1, 2, "hi", 5⟩, ⟨2, 2, 1, "yo", 6⟩, ⟨3, 3, 1, "x", 7⟩] :
          List Message).filter (betweenUsers 1 2)).Pairwise
        (fun m1 m2 => m1.timestamp ≠ m2.timestamp) →
      ([⟨1, 1, 2, "hi", 5⟩, ⟨2, 2, 1, "yo", 6⟩] : List Message).Pairwise tsIdLt)) :=
  ⟨by decide, ⟨by decide, by decide⟩,
    get_messages_spec _ _ 1 2 (by decide) ⟨by decide, by decide⟩⟩

theorem toDigitsCore_succ (n fuel : Nat) (ds : List Char) :
    Nat.toDigitsCore 10 (fuel + 1) n ds =
      if n / 10 = 0 then Nat.digitChar (n % 10) :: ds
      else Nat.toDigitsCore 10 fuel (n / 10) (Nat.digitChar (n % 10) :: ds) := by
  simp only [Nat.toDigitsCore]

theorem toDigitsCore_eq_digitsOf (n : Nat) : ∀ (fuel : Nat) (ds : List Char),
    n < fuel → Nat.toDigitsCore 10 fuel n ds = digitsOf n ++ ds := by
  induction n using Nat.strong_induction_on with
  | _ n ih =>
    intro fuel ds hf
    cases fuel with
    | zero => omega
    | succ fuel =>
      rw [toDigitsCore_succ]
      by_cases h : n / 10 = 0
      · rw [if_pos h, digitsOf, if_pos h]
        rfl
      · rw [if_neg h, digitsOf, if_neg h]
        rw [ih (n / 10) (by omega) fuel (Nat.digitChar (n % 10) :: ds) (by omega)]
        simp

theorem digitVal_digitChar : ∀ d, d < 10 → digitVal (Nat.digitChar d) = d := by
  decide

theorem digitChar_mem_decDigits : ∀ d, d < 10 → Nat.digitChar d ∈ decDigits := by
  decide

theorem digitsVal_digitsOf (n : Nat) : digitsVal (digitsOf n) = n := by
  induction n using Nat.strong_induction_on with
  | _ n ih =>
    by_cases h : n / 10 = 0
    · rw [digitsOf, if_pos h]
      simp only [digitsVal, List.foldl_cons, List.foldl_nil]
      rw [digitVal_digitChar (n % 10) (by omega)]
      omega
    · rw [digitsOf, if_neg h]
      have hv := ih (n / 10) (by omega)
      have hd := digitVal_digitChar (n % 10) (by omega)
      simp only [digitsVal, List.foldl_append, List.foldl_cons, List.foldl_nil] at hv ⊢
      rw [hv, hd]
      omega

theorem digitsOf_inj {m n : Nat} (h : digitsOf m = digitsOf n) : m = n := by
  have hm := digitsVal_digitsOf m
  rw [h, digitsVal_digitsOf] at hm
  omega

theorem mem_digitsOf (n : Nat) : ∀ c ∈ digitsOf n, c ∈ decDigits := by
  induction n using Nat.strong_induction_on with
  | _ n ih =>
    by_cases h : n / 10 = 0
    · rw [digitsOf, if_pos h]
      intro c hc
      rw [List.mem_singleton] at hc
      rw [hc]
      exact digitChar_mem_decDigits (n % 10) (by omega)
    · rw [digitsOf, if_neg h]
      intro c hc
      rcases List.mem_append.mp hc with hc | hc
      · exact ih (n / 10) (by omega) c hc
      · rw [List.mem_singleton] at hc
        rw [hc]
        exact digitChar_mem_decDigits (n % 10) (by omega)

theorem natRepr_data (n : Nat) : (Nat.repr n).data = digitsOf n := by
  show (Nat.toDigits 10 n).asString.data = digitsOf n
  rw [Nat.toDigits, toDigitsCore_eq_digitsOf n (n + 1) [] (Nat.lt_succ_self n)]
  simp [List.asString]

theorem int_toString_data_ofNat (m : Nat) :
    (toString (Int.ofNat m)).data = digitsOf m :=
  natRepr_data m

theorem int_toString_data_negSucc (m : Nat) :
    (toString (Int.negSucc m)).data = '-' :: digitsOf (m + 1) := by
  show ("-" ++ Nat.repr (m + 1)).data = '-' :: digitsOf (m + 1)
  rw [data_append, natRepr_data]
  rfl

theorem int_toString_no_underscore (i : Int) : '_' ∉ (toString i).data := by
  cases i with
  | ofNat m =>
    rw [int_toString_data_ofNat]
    intro h
    exact absurd (mem_digitsOf m _ h) (by decide)
  | negSucc m =>
    rw [int_toString_data_negSucc]
    intro h
    rcases List.mem_cons.mp h with h | h
    · exact absurd h (by decide)
    · exact absurd (mem_digitsOf (m + 1) _ h) (by decide)

theorem int_toString_inj {i j : Int} (h : toString i = toString j) : i = j := by
  have hd : (toString i).data = (toString j).data := by rw [h]
  cases i with
  | ofNat m =>
    cases j with
    | ofNat k =>
      rw [int_toString_data_ofNat, int_toString_data_ofNat] at hd
      rw [digitsOf_inj hd]
    | negSucc k =>
      rw [int_toString_data_ofNat, int_toString_data_negSucc] at hd
      exfalso
      have hdash : '-' ∈ digitsOf m := by
        rw [hd]
        exact List.mem_cons_self _ _
      exact absurd (mem_digitsOf m _ hdash) (by decide)
  | negSucc m =>
    cases j with
    | ofNat k =>
      rw [int_toString_data_negSucc, int_toString_data_ofNat] at hd
      exfalso
      have hdash : '-' ∈ digitsOf k := by
        rw [← hd]
        exact List.mem_cons_self _ _
      exact absurd (mem_digitsOf k _ hdash) (by decide)
    | negSucc k =>
      rw [int_toString_data_negSucc, int_toString_data_negSucc] at hd
      injection hd with hd1 hd2
      have hmk : m = k := by
        have := digitsOf_inj hd2
        omega
      rw [hmk]

theorem append_cons_cancel {l1 l2 r1 r2 : List Char} {c : Char}
    (h1 : c ∉ l1) (h2 : c ∉ l2) (h : l1 ++ c :: r1 = l2 ++ c :: r2) :
    l1 = l2 ∧ r1 = r2 := by
  induction l1 generalizing l2 with
  | nil =>
    cases l2 with
    | nil => simpa using h
    | cons b t =>
      simp only [List.nil_append, List.cons_append, List.cons.injEq] at h
      exfalso
      apply h2
      rw [h.1]
      exact List.mem_cons_self b t
  | cons a t ih =>
    cases l2 with
    | nil =>
      simp only [List.cons_append, List.nil_append, List.cons.injEq] at h
      exfalso
      apply h1
      rw [← h.1]
      exact List.mem_cons_self a t
    | cons b t2 =>
      simp only [List.cons_append, List.cons.injEq] at h
      obtain ⟨hab, ht⟩ := h
      have h1' : c ∉ t := fun hc => h1 (List.mem_cons_of_mem _ hc)
      have h2' : c ∉ t2 := fun hc => h2 (List.mem_cons_of_mem _ hc)
      obtain ⟨he, hr⟩ := ih h1' h2' ht
      exact ⟨by rw [hab, he], hr⟩

theorem get_room_data (a b : Int) :
    (get_room a b).data =
      'r' :: 'o' :: 'o' :: 'm' :: '_' ::
        ((toString (min a b)).data ++ '_' :: (toString (max a b)).data) := by
  unfold get_room
  rw [data_append, data_append, data_append]
  have h1 : ("room_" : String).data = ['r', 'o', 'o', 'm', '_'] := rfl
  have h2 : ("_" : String).data = ['_'] := rfl
  rw [h1, h2]
  simp [List.append_assoc]

theorem set_pair_minmax (a b : Int) : ({a, b} : Set Int) = {min a b, max a b} := by
  rcases le_total a b with h | h
  · rw [min_eq_left h, max_eq_right h]
  · rw [min_eq_right h, max_eq_left h, Set.pair_comm]

/-- C2: the room resolver is commutative — swapping the two participant ids
yields the same room string — and injective over unordered pairs: distinct
unordered pairs always resolve to distinct room strings. -/
theorem get_room_comm_and_inj :
    (∀ a b : Int, get_room a b = get_room b a) ∧
    (∀ a b c d : Int, ({a, b} : Set Int) ≠ ({c, d} : Set Int) →
      get_room a b ≠ get_room c d) := by
  constructor
  · intro a b
    unfold get_room
    rw [min_comm, max_comm]
  · intro a b c d hne heq
    apply hne
    have hd : (get_room a b).data = (get_room c d).data := by rw [heq]
    rw [get_room_data, get_room_data] at hd
    simp only [List.cons.injEq, true_and] at hd
    obtain ⟨hmin, hmax⟩ := append_cons_cancel
      (int_toString_no_underscore (min a b)) (int_toString_no_underscore (min c d)) hd
    have hmin' : min a b = min c d := int_toString_inj (string_eq_of_data hmin)
    have hmax' : max a b = max c d := int_toString_inj (string_eq_of_data hmax)
    rw [set_pair_minmax a b, set_pair_minmax c d, hmin', hmax']

/-- Witness for C2: the unordered pairs (1,2) and (1,3) differ, and so do
their room strings. -/
theorem get_room_comm_and_inj_w :
    ({1, 2} : Set Int) ≠ ({1, 3} : Set Int) ∧ get_room 1 2 ≠ get_room 1 3 := by
  have hne : ({1, 2} : Set Int) ≠ ({1, 3} : Set Int) := by
    intro h
    have h2 : (2 : Int) ∈ ({1, 2} : Set Int) := by simp
    rw [h] at h2
    simp at h2
  exact ⟨hne, get_room_comm_and_inj.2 1 2 1 3 hne⟩
